import Mathlib

/-!
Shallow embedding of the `app_project_analyzer` repository
(`main.py`, `project_analyzer_async.py`, `project_config.py`).

The sanitizer of `AsyncProjectAnalyzer.summarize_file` applies two
Python regular-expression substitutions in sequence:

  pass1 : `re.sub(r'(?<!["\'\\])#.*$', "", content, flags=re.MULTILINE)`
  pass2 : `re.sub(r"^(\s*#.*\n)+", "", content, flags=re.MULTILINE)`

Both are embedded below as character-list machines.  `pass1` removes, on
each line, everything from the first `#` whose immediately preceding
character is not one of `"` `'` `\` through the end of that line (the
lookbehind inspects the original string; since a match always extends to
the end of its line, matches are line-local).  `pass2` deletes maximal
runs of groups `\s*#[^\n]*\n` anchored at a line start; its repetition
is implemented with a fuel argument (each group consumes at least two
characters, so fuel equal to the length of the text is always enough).
-/

/-- The newline character (written via its code point). -/
def nlChar : Char := Char.ofNat 10

/-- The comment-marker character of the sanitizer's regexes. -/
def hashChar : Char := '#'

/-- The double-quote character of the lookbehind class `["'\]`. -/
def quoteChar : Char := Char.ofNat 34

/-- The single-quote character of the lookbehind class `["'\]`. -/
def aposChar : Char := Char.ofNat 39

/-- The backslash character of the lookbehind class `["'\]`. -/
def backslashChar : Char := Char.ofNat 92

/-- ASCII whitespace matched by the regex class `\s`
(space, tab, newline, carriage return, form feed, vertical tab). -/
def isWs (c : Char) : Bool :=
  c == Char.ofNat 32 || c == Char.ofNat 9 || c == nlChar ||
  c == Char.ofNat 13 || c == Char.ofNat 12 || c == Char.ofNat 11

/-- Whether the optional preceding character triggers the negative
lookbehind `(?<!["'\])` of pass1 (no preceding character means the
lookbehind succeeds, i.e. the `#` is unguarded). -/
def isGuard : Option Char → Bool
  | some c => c == quoteChar || c == aposChar || c == backslashChar
  | none => false

/-- Machine for `re.sub(r'(?<!["\'\\])#.*$', "", s, flags=re.MULTILINE)`.
`dropping = true` means we are inside a matched `#.*` and skip characters
up to (but not including) the next newline; `prev` is the character
preceding the current position in the original string. -/
def pass1Aux (dropping : Bool) (prev : Option Char) : List Char → List Char
  | [] => []
  | c :: cs =>
    if dropping then
      if c = nlChar then c :: pass1Aux false (some nlChar) cs
      else pass1Aux true prev cs
    else
      if c == hashChar && !isGuard prev then pass1Aux true prev cs
      else c :: pass1Aux false (some c) cs

/-- First substitution of `summarize_file` (line 54 of
`project_analyzer_async.py`). -/
def pass1 (s : String) : String := ⟨pass1Aux false none s.data⟩

/-- Consume `.*\n` after the `#` of one group `\s*#.*\n`: skip to the
next newline and return the remainder after it, or fail if the text ends
without a newline (the group then cannot match). -/
def afterHash : List Char → Option (List Char)
  | [] => none
  | c :: cs => if c = nlChar then some cs else afterHash cs

/-- Try to match one group `\s*#.*\n` at the current position.  Greedy
`\s*` never needs backtracking here: `#` is not whitespace, so the only
candidate position for `#` is the end of the maximal whitespace run. -/
def matchGroup (cs : List Char) : Option (List Char) :=
  match cs.dropWhile isWs with
  | c :: rest => if c = hashChar then afterHash rest else none
  | [] => none

/-- Keep matching further groups (the `+` of `(\s*#.*\n)+`), fueled. -/
def matchRunMore (fuel : Nat) (cs : List Char) : List Char :=
  match fuel with
  | 0 => cs
  | f + 1 =>
    match matchGroup cs with
    | some rest => matchRunMore f rest
    | none => cs

/-- Match the full `(\s*#.*\n)+` (one or more groups, greedy), returning
the remainder of the text after the match, or `none`. -/
def matchRun (cs : List Char) : Option (List Char) :=
  match matchGroup cs with
  | some rest => some (matchRunMore cs.length rest)
  | none => none

/-- Machine for `re.sub(r"^(\s*#.*\n)+", "", s, flags=re.MULTILINE)`.
`atStart` records whether the current position is a line start (where
the MULTILINE `^` can match).  Fuel decreases every step; fuel equal to
the length of the text suffices because every step consumes at least one
character. -/
def pass2Aux (fuel : Nat) (atStart : Bool) (cs : List Char) : List Char :=
  match fuel, cs with
  | _, [] => []
  | 0, cs => cs
  | f + 1, c :: cs' =>
    if atStart then
      match matchRun (c :: cs') with
      | some rest => pass2Aux f true rest
      | none => c :: pass2Aux f (c == nlChar) cs'
    else c :: pass2Aux f (c == nlChar) cs'

/-- Second substitution of `summarize_file` (line 55 of
`project_analyzer_async.py`). -/
def pass2 (s : String) : String := ⟨pass2Aux s.data.length true s.data⟩

/-- The text transformation of `summarize_file`: Python runs the two
substitutions only under `if content:` (i.e. when the text is nonempty)
and returns the text unchanged otherwise. -/
def sanitize (content : String) : String :=
  if content = "" then content else pass2 (pass1 content)

/-!
Remaining components of `project_analyzer_async.py`, `main.py` and
`project_config.py`.  File reading is abstracted by a function
`read : String → String` from path to content (`read_file` returns the
empty string on any I/O failure, so content is always a plain string);
directory walking by `walk : String → List String`; the aggregate LLM
call by `llm : String → Except String String` (exceptions from the
provider client propagate, modelled as `Except.error`).
-/

/-- `summarize_file`: read the file (empty string on failure) and
sanitize its text. -/
def summarize_file (read : String → String) (p : String) : String :=
  sanitize (read p)

/-- Python `dict` insertion: an existing key keeps its position and gets
the new value; a new key is appended. -/
def dictInsert (m : List (String × String)) (k v : String) :
    List (String × String) :=
  if m.any (fun e => e.1 == k) then
    m.map (fun e => if e.1 == k then (k, v) else e)
  else m ++ [(k, v)]

/-- `analyze_files`: gather the per-file summaries in input order and
build `{file: summary for file, summary in zip(files, summaries) if summary}`
(entries with empty — falsy — summary are skipped). -/
def analyze_files (read : String → String) (files : List String) :
    List (String × String) :=
  (files.map (fun f => (f, summarize_file read f))).foldl
    (fun m kv => if kv.2 == "" then m else dictInsert m kv.1 kv.2) []

/-- `GPT_4_TURBO` from `project_config.py`. -/
def GPT_4_TURBO : String := "gpt-4-turbo"

/-- `CLAUDE_SONNET` from `project_config.py`. -/
def CLAUDE_SONNET : String := "claude-3-5-sonnet-20241022"

/-- Python `model_id or default`: `None` and the empty string are falsy
and select the default. -/
def orDefault (m : Option String) (d : String) : String :=
  match m with
  | some s => if s = "" then d else s
  | none => d

/-- The state built by `AsyncProjectAnalyzer.__init__` (the semaphore
bound plays no role in the sequential value-level model). -/
structure AsyncProjectAnalyzer where
  llm_provider : String
  model_id : String
deriving Repr, DecidableEq

/-- `AsyncProjectAnalyzer.__init__`: the constructor contains no
validation and no raise statement, so it always succeeds; it is given an
`Except` result type to express exactly that.  The default model is
`GPT_4_TURBO` for provider `"openai"` and `CLAUDE_SONNET` for every
other provider string. -/
def initAnalyzer (llm_provider : String) (model_id : Option String) :
    Except String AsyncProjectAnalyzer :=
  .ok { llm_provider := llm_provider
        model_id := orDefault model_id
          (if llm_provider = "openai" then GPT_4_TURBO else CLAUDE_SONNET) }

/-- The single-quote string used around the project name in the prompt
f-string (built from its code point). -/
def aposStr : String := ⟨[aposChar]⟩

/-- The prompt of `generate_summary`: fixed three-point preamble
followed by `### path\ncontent` blocks joined by blank lines. -/
def buildPrompt (project_name : String) (summaries : List (String × String)) :
    String :=
  let content := String.intercalate "\n\n"
    (summaries.map (fun ps => "### " ++ ps.1 ++ "\n" ++ ps.2))
  "Analyze the Python project " ++ aposStr ++ project_name ++ aposStr ++
    " and provide:\n" ++
    "1. A comprehensive project summary.\n" ++
    "2. A detailed README.md file.\n" ++
    "3. Key architectural insights and potential improvements.\n\n" ++ content

/-- The provider network call dispatched by `generate_summary`. -/
inductive ProviderCall
  | claude (prompt model : String)
  | openai (prompt model : String)
  | llama3 (prompt model : String)
deriving Repr, DecidableEq

/-- `generate_summary` up to the provider dispatch: an `ok` value is the
provider call that gets awaited; `error` is the `ValueError` of the
final else branch, raised with no provider call dispatched. -/
def generate_summary (a : AsyncProjectAnalyzer)
    (summaries : List (String × String)) (project_name : String) :
    Except String ProviderCall :=
  let prompt := buildPrompt project_name summaries
  if a.llm_provider = "claude" then .ok (.claude prompt a.model_id)
  else if a.llm_provider = "openai" then .ok (.openai prompt a.model_id)
  else if a.llm_provider = "llama3" then .ok (.llama3 prompt a.model_id)
  else .error ("Unsupported LLM provider: " ++ a.llm_provider)

/-- Python truthiness of an optional string (`None` and `""` are falsy). -/
def strTruthy : Option String → Bool
  | none => false
  | some s => !(s == "")

/-- Python truthiness of an optional list (`None` and `[]` are falsy). -/
def listTruthy : Option (List String) → Bool
  | none => false
  | some l => !l.isEmpty

/-- The input validation of `main.py`:
`if not args.directory and not args.files: parser.error(...)`.
`true` means validation passes and the run proceeds. -/
def mainValidationPasses (directory : Option String)
    (files : Option (List String)) : Bool :=
  strTruthy directory || listTruthy files

/-- The `ValueError` of `analyze_project` when neither a truthy
`file_list` nor a truthy `project_path` is supplied. -/
inductive CollectError
  | missingInput
deriving Repr, DecidableEq

/-- The file-selection branch of `analyze_project` (lines 104-118):
a truthy `file_list` is used as is; otherwise a truthy `project_path`
is walked for `.py` files; otherwise `ValueError` is raised. -/
def collectFiles (walk : String → List String) (project_path : Option String)
    (file_list : Option (List String)) : Except CollectError (List String) :=
  if listTruthy file_list then .ok (file_list.getD [])
  else if strTruthy project_path then .ok (walk (project_path.getD ""))
  else .error .missingInput

/-- POSIX `os.path.basename`: the component after the last `/`. -/
def basename (p : String) : String :=
  ⟨p.data.foldl (fun acc c => if c = '/' then [] else acc ++ [c]) []⟩

/-- `.replace(os.sep, "_")` for the single-character POSIX separator:
replace each `/` by `_`. -/
def replaceSep (s : String) : String :=
  ⟨s.data.map (fun c => if c = '/' then '_' else c)⟩

/-- The per-entry output file name of the result writer:
`os.path.basename(file).replace(os.sep, "_")` plus the `.json` suffix. -/
def derivedName (f : String) : String :=
  replaceSep (basename f) ++ ".json"

/-- Writing one file into a directory listing: a file of the same name
is overwritten in place, otherwise the file is appended. -/
def fsWrite (dir : List (String × String)) (name content : String) :
    List (String × String) :=
  if dir.any (fun e => e.1 == name) then
    dir.map (fun e => if e.1 == name then (name, content) else e)
  else dir ++ [(name, content)]

/-- The write phase of `analyze_project` (lines 129-144): one file per
summaries entry named `derivedName`, then `project_summary.md`.  The
output directory is created on demand; a fresh run directory is
modelled as the empty listing. -/
def writeOutputs (summaries : List (String × String))
    (project_summary : String) : List (String × String) :=
  fsWrite
    (summaries.foldl (fun d fs => fsWrite d (derivedName fs.1) fs.2) [])
    "project_summary.md" project_summary

/-- Terminal states of one `analyze_project` run. -/
inductive RunOutcome
  | invalidArgs
  | noFilesFound
  | llmError (e : String)
  | success (dir : String) (files : List (String × String))
deriving Repr, DecidableEq

/-- `analyze_project` as a straight-line pipeline: select input files,
return gracefully when none are found, sanitize them, make the single
aggregate LLM call, and only after it succeeds create the output
directory (`os.path.join(output_path, f"{project_name}_analysis")`,
modelled for POSIX) and write the result files. -/
def analyze_project (read : String → String) (walk : String → List String)
    (llm : String → Except String String) (project_path : Option String)
    (output_path : String) (project_name : String)
    (file_list : Option (List String)) : RunOutcome :=
  match collectFiles walk project_path file_list with
  | .error _ => .invalidArgs
  | .ok files =>
    if files.isEmpty then .noFilesFound
    else
      let summaries := analyze_files read files
      match llm (buildPrompt project_name summaries) with
      | .error e => .llmError e
      | .ok project_summary =>
        .success (output_path ++ "/" ++ project_name ++ "_analysis")
          (writeOutputs summaries project_summary)

/-- The output directory created by a run (`none` when the run ended
before `os.makedirs`). -/
def createdDir : RunOutcome → Option String
  | .success dir _ => some dir
  | _ => none

/-- The files written by a run (empty when the run ended before the
write phase). -/
def writtenFiles : RunOutcome → List (String × String)
  | .success _ files => files
  | _ => []

/-- Every `#` of the text is guarded by the lookbehind class, i.e.
immediately preceded by `"`, `'` or `\`; such a text contains no
comment that pass1 would detect.  `prev` is the character preceding the
text (none at the start of the file). -/
def allGuarded (prev : Option Char) : List Char → Bool
  | [] => true
  | c :: cs => (!(c == hashChar) || isGuard prev) && allGuarded (some c) cs

/-- The character preceding the position right after `w`, when the
character preceding `w` is `prev`. -/
def lastPrev (prev : Option Char) (w : List Char) : Option Char :=
  w.foldl (fun _ c => some c) prev

/-- Names kept by a sequence of overwrite-or-append file writes: the
distinct names in first-occurrence order, given already-present `seen`
names. -/
def dedupNew (seen : List String) : List String → List String
  | [] => []
  | n :: ns =>
    if seen.any (fun k => k == n) then dedupNew seen ns
    else n :: dedupNew (seen ++ [n]) ns

/-- A concrete directory walk used by witnesses. -/
def demoWalk : String → List String := fun _ => ["w.py"]

/-- A concrete file-content map used by witnesses. -/
def demoRead : String → String :=
  fun p => if p = "a.py" then "print(1)  # note" else ""

/-!  Helper lemmas about the sanitizer machines. -/

/-- A whitespace character is never a lookbehind guard. -/
theorem ws_not_guard {c : Char} (h : isWs c = true) :
    isGuard (some c) = false := by
  simp only [isWs, Bool.or_eq_true, beq_iff_eq] at h
  rcases h with ((((h | h) | h) | h) | h) | h <;> subst h <;> decide

/-- A text without `#` is entirely guarded, whatever precedes it. -/
theorem allGuarded_of_no_hash :
    ∀ (cs : List Char), hashChar ∉ cs → ∀ prev, allGuarded prev cs = true := by
  intro cs
  induction cs with
  | nil => intro _ _; rfl
  | cons c cs ih =>
    intro h prev
    have hc : c ≠ hashChar := fun hc => h (by simp [hc])
    have hcs : hashChar ∉ cs := fun hm => h (List.mem_cons_of_mem _ hm)
    simp [allGuarded, hc, ih hcs]

/-- `lastPrev` over a cons. -/
theorem lastPrev_cons (prev : Option Char) (c : Char) (w : List Char) :
    lastPrev prev (c :: w) = lastPrev (some c) w := rfl

/-- `allGuarded` splits over an append, the second part being checked
against the character that ends up preceding it. -/
theorem allGuarded_append :
    ∀ (w : List Char) (prev : Option Char) (cs : List Char),
      allGuarded prev (w ++ cs)
        = (allGuarded prev w && allGuarded (lastPrev prev w) cs) := by
  intro w
  induction w with
  | nil => intro prev cs; simp [allGuarded, lastPrev]
  | cons c w ih =>
    intro prev cs
    simp [allGuarded, lastPrev_cons, ih (some c) cs, Bool.and_assoc]

/-- pass1 copies a hash-free prefix verbatim and continues with the
prefix's last character as the predecessor. -/
theorem pass1Aux_copy :
    ∀ (w : List Char), hashChar ∉ w → ∀ (prev : Option Char) (rest : List Char),
      pass1Aux false prev (w ++ rest)
        = w ++ pass1Aux false (lastPrev prev w) rest := by
  intro w
  induction w with
  | nil => intro _ prev rest; simp [lastPrev]
  | cons c w ih =>
    intro h prev rest
    have hc : c ≠ hashChar := fun hc => h (by simp [hc])
    have hw : hashChar ∉ w := fun hm => h (List.mem_cons_of_mem _ hm)
    simp [pass1Aux, hc, ih hw (some c) rest, lastPrev_cons]

/-- pass1 leaves a fully guarded text unchanged. -/
theorem pass1Aux_fix_of_allGuarded :
    ∀ (cs : List Char) (prev : Option Char), allGuarded prev cs = true →
      pass1Aux false prev cs = cs := by
  intro cs
  induction cs with
  | nil => intro _ _; rfl
  | cons c cs ih =>
    intro prev h
    simp only [allGuarded, Bool.and_eq_true, Bool.or_eq_true, Bool.not_eq_true',
      beq_eq_false_iff_ne, beq_iff_eq] at h
    rcases h with ⟨hc | hg, hcs⟩
    · simp [pass1Aux, hc, ih (some c) hcs]
    · by_cases hch : c = hashChar
      · subst hch
        simp [pass1Aux, hg, ih (some hashChar) hcs]
      · simp [pass1Aux, hch, ih (some c) hcs]

/-- In drop mode, a newline-free remainder is removed entirely
(the match `#.*$` extends to the end of the text). -/
theorem pass1Aux_drop_no_nl :
    ∀ (cs : List Char), nlChar ∉ cs → ∀ prev, pass1Aux true prev cs = [] := by
  intro cs
  induction cs with
  | nil => intro _ _; rfl
  | cons c cs ih =>
    intro h prev
    have hc : c ≠ nlChar := fun hc => h (by simp [hc])
    have hcs : nlChar ∉ cs := fun hm => h (List.mem_cons_of_mem _ hm)
    simp [pass1Aux, hc, ih hcs prev]

/-- In drop mode, everything up to the next newline is removed and the
newline itself is kept; scanning resumes after it. -/
theorem pass1Aux_drop_to_nl :
    ∀ (a : List Char), nlChar ∉ a → ∀ (prev : Option Char) (rest : List Char),
      pass1Aux true prev (a ++ nlChar :: rest)
        = nlChar :: pass1Aux false (some nlChar) rest := by
  intro a
  induction a with
  | nil => intro _ prev rest; simp [pass1Aux]
  | cons c a ih =>
    intro h prev rest
    have hc : c ≠ nlChar := fun hc => h (by simp [hc])
    have ha : nlChar ∉ a := fun hm => h (List.mem_cons_of_mem _ hm)
    simp [pass1Aux, hc, ih ha prev rest]

/-- At a position whose predecessor is not a guard, a fully guarded text
offers no match for the group `\s*#.*\n`. -/
theorem matchGroup_none_of_allGuarded :
    ∀ (cs : List Char) (prev : Option Char), allGuarded prev cs = true →
      isGuard prev = false → matchGroup cs = none := by
  intro cs
  induction cs with
  | nil => intro _ _ _; rfl
  | cons c cs ih =>
    intro prev h hprev
    simp only [allGuarded, Bool.and_eq_true, Bool.or_eq_true, Bool.not_eq_true',
      beq_eq_false_iff_ne, beq_iff_eq] at h
    rcases h with ⟨hc, hcs⟩
    by_cases hws : isWs c = true
    · have : matchGroup (c :: cs) = matchGroup cs := by
        simp [matchGroup, List.dropWhile, hws]
      rw [this]
      exact ih (some c) hcs (ws_not_guard hws)
    · rcases hc with hc | hg
      · simp [matchGroup, List.dropWhile, hws, hc]
      · rw [hg] at hprev; exact absurd hprev (by simp)

/-- pass2 leaves a fully guarded text unchanged: no line start can reach
a `#` through whitespace, so the block pattern never matches. -/
theorem pass2Aux_fix_of_allGuarded :
    ∀ (cs : List Char) (prev : Option Char) (b : Bool) (fuel : Nat),
      cs.length ≤ fuel → allGuarded prev cs = true →
      (b = true → isGuard prev = false) → pass2Aux fuel b cs = cs := by
  intro cs
  induction cs with
  | nil => intro prev b fuel _ _ _; cases fuel <;> rfl
  | cons c cs ih =>
    intro prev b fuel hlen h hb
    cases fuel with
    | zero => simp at hlen
    | succ f =>
      have hcs : allGuarded (some c) cs = true := by
        simp only [allGuarded, Bool.and_eq_true] at h; exact h.2
      have hrec : pass2Aux f (c == nlChar) cs = cs := by
        apply ih (some c) _ f (by simpa using hlen) hcs
        intro hcnl
        have hc : c = nlChar := by simpa using hcnl
        subst hc; decide
      cases b with
      | false => simp [pass2Aux, hrec]
      | true =>
        have hmg : matchGroup (c :: cs) = none :=
          matchGroup_none_of_allGuarded (c :: cs) prev h (hb rfl)
        simp [pass2Aux, matchRun, hmg, hrec]

/-- Rebuilding a string from its character list is the identity. -/
theorem mk_data (s : String) : String.mk s.data = s := rfl

/-- Appending strings appends their character lists. -/
theorem data_append (s t : String) : (s ++ t).data = s.data ++ t.data := rfl

/-- A string with a nonempty character list is not the empty string. -/
theorem ne_empty_of_data_ne_nil {s : String} (h : s.data ≠ []) : s ≠ "" := by
  intro he; subst he; exact h rfl

/-- The sanitizer leaves a fully guarded text (in particular any text
without `#`) unchanged. -/
theorem sanitize_fix_of_allGuarded (s : String)
    (h : allGuarded none s.data = true) : sanitize s = s := by
  by_cases hs : s = ""
  · subst hs; rfl
  · have h1 : pass1 s = s := by
      show String.mk (pass1Aux false none s.data) = s
      rw [pass1Aux_fix_of_allGuarded s.data none h]
    have h2 : pass2 s = s := by
      show String.mk (pass2Aux s.data.length true s.data) = s
      rw [pass2Aux_fix_of_allGuarded s.data none true s.data.length le_rfl h
        (fun _ => rfl)]
    simp [sanitize, hs, h1, h2]

/-- The character list of the one-character string `"#"`. -/
theorem hash_str_data : ("#" : String).data = [hashChar] := rfl

/-- The character list of the one-character string `"\n"`. -/
theorem nl_str_data : ("\n" : String).data = [nlChar] := by decide

/-- The literal `'#'` is `hashChar`. -/
theorem hash_char_eq : '#' = hashChar := rfl

/-- The literal `'\n'` is `nlChar`. -/
theorem nl_char_eq : '\n' = nlChar := by decide

/-- The literal `'"'` is `quoteChar`. -/
theorem quote_char_eq : '\"' = quoteChar := by decide

/-- pass1 leaves a fully guarded string unchanged (string level). -/
theorem pass1_fix_of_allGuarded (s : String)
    (h : allGuarded none s.data = true) : pass1 s = s := by
  show String.mk (pass1Aux false none s.data) = s
  rw [pass1Aux_fix_of_allGuarded s.data none h]

/-- pass2 leaves a fully guarded string unchanged (string level). -/
theorem pass2_fix_of_allGuarded (s : String)
    (h : allGuarded none s.data = true) : pass2 s = s := by
  show String.mk (pass2Aux s.data.length true s.data) = s
  rw [pass2Aux_fix_of_allGuarded s.data none true s.data.length le_rfl h
    (fun _ => rfl)]

/-!  Claim C1. -/

/-- C1 is false as stated: on the line `x = "a # b"` the marker `#`
occurs inside a same-line quoted string literal, yet the Sanitizer
removes it together with the rest of the line, because the lookbehind
only inspects the single immediately preceding character (here a space). -/
theorem c1_counterexample :
    sanitize "x = \"a # b\"" = "x = \"a " ∧
    sanitize "x = \"a # b\"" ≠ "x = \"a # b\"" := by decide

/-- C1 (amended): the Sanitizer deletes from the first `#` through end
of line unless that `#` is immediately preceded by `"`, `'` or `\`; a
`#` immediately preceded by such a quote character is preserved (being
inside a quoted literal is neither necessary nor sufficient).  Here `u`
is the line prefix before the marker and `v` the rest of the line. -/
theorem c1_amended (u v : String)
    (hu : hashChar ∉ u.data) (hv : hashChar ∉ v.data) (hvn : nlChar ∉ v.data)
    (hlast : isGuard (lastPrev none u.data) = false) :
    sanitize (u ++ "#" ++ v) = u ∧
    sanitize (u ++ "\"#" ++ v) = u ++ "\"#" ++ v := by
  constructor
  · have hxd : (u ++ "#" ++ v).data = u.data ++ (hashChar :: v.data) := by
      simp only [data_append, hash_str_data, List.append_assoc, List.singleton_append]
      rfl
    have hne : (u ++ "#" ++ v) ≠ "" :=
      ne_empty_of_data_ne_nil (by rw [hxd]; simp)
    have hp1 : pass1 (u ++ "#" ++ v) = u := by
      show String.mk (pass1Aux false none (u ++ "#" ++ v).data) = u
      rw [hxd, pass1Aux_copy u.data hu none (hashChar :: v.data)]
      have hcut : pass1Aux false (lastPrev none u.data) (hashChar :: v.data)
          = pass1Aux true (lastPrev none u.data) v.data := by
        simp [pass1Aux, hlast]
      rw [hcut, pass1Aux_drop_no_nl v.data hvn _]
      simp only [List.append_nil]
    simp only [sanitize, if_neg hne, hp1]
    exact pass2_fix_of_allGuarded u (allGuarded_of_no_hash u.data hu none)
  · have hq : ("\"#" : String).data = [quoteChar, hashChar] := by decide
    have hxd : (u ++ "\"#" ++ v).data
        = u.data ++ (quoteChar :: hashChar :: v.data) := by
      simp only [data_append, hq, List.append_assoc, List.cons_append, List.singleton_append]
      rfl
    have hg : allGuarded none (u ++ "\"#" ++ v).data = true := by
      rw [hxd, allGuarded_append, Bool.and_eq_true]
      refine ⟨allGuarded_of_no_hash u.data hu none, ?_⟩
      have h1 : (quoteChar == hashChar) = false := by decide
      have h2 : isGuard (some quoteChar) = true := by decide
      simp [allGuarded, h1, h2,
        allGuarded_of_no_hash v.data hv (some hashChar)]
    exact sanitize_fix_of_allGuarded _ hg

/-- Witness for C1 (amended) at the line `x = # note` and at the line
`x = "# note`. -/
theorem c1_amended_witness :
    sanitize ("x = " ++ "#" ++ " note") = "x = " ∧
    sanitize ("x = " ++ "\"#" ++ " note") = "x = " ++ "\"#" ++ " note" :=
  c1_amended "x = " " note" (by decide) (by decide) (by decide) (by decide)

/-!  Claim C2. -/

/-- C2 is false as stated: sanitizing `"# header\nprint(2)"` yields
`"\nprint(2)"`, not `"print(2)\n"` — the leading comment line is
emptied by the trailing-comment pass, which leaves its newline behind,
and the start-of-file block pass then finds no `#` left to remove. -/
theorem c2_counterexample :
    sanitize "# header\nprint(2)" = "\nprint(2)" ∧
    ("\nprint(2)" : String) ≠ "print(2)\n" := by decide

/-- C2 (amended): a whole-line comment is emptied in place wherever it
occurs — at the very start of the file the run of comment text is
deleted but each comment line leaves a blank line behind (so
`"#" ++ s ++ "\n" ++ t` sanitizes to `"\n" ++ t`), and a comment-only
line after the first code line is likewise emptied in place rather than
left untouched (`t ++ "\n#" ++ s ++ "\n" ++ t` sanitizes to
`t ++ "\n\n" ++ t`). -/
theorem c2_amended (s t : String)
    (hs : nlChar ∉ s.data) (_ht : nlChar ∉ t.data) (ht2 : hashChar ∉ t.data) :
    sanitize ("#" ++ s ++ "\n" ++ t) = "\n" ++ t ∧
    sanitize (t ++ "\n#" ++ s ++ "\n" ++ t) = t ++ "\n\n" ++ t := by
  have hfixt : pass1Aux false (some nlChar) t.data = t.data :=
    pass1Aux_fix_of_allGuarded t.data (some nlChar)
      (allGuarded_of_no_hash t.data ht2 (some nlChar))
  have hnh : (nlChar == hashChar) = false := by decide
  have hng : isGuard (some nlChar) = false := by decide
  constructor
  · have hxd : ("#" ++ s ++ "\n" ++ t).data
        = hashChar :: (s.data ++ nlChar :: t.data) := by
      simp only [data_append, hash_str_data, nl_str_data, List.append_assoc, List.singleton_append]
      rfl
    have hne : ("#" ++ s ++ "\n" ++ t) ≠ "" :=
      ne_empty_of_data_ne_nil (by rw [hxd]; simp)
    have hnt : ("\n" ++ t).data = nlChar :: t.data := by
      simp only [data_append, nl_str_data, List.singleton_append]
      rfl
    have hp1 : pass1 ("#" ++ s ++ "\n" ++ t) = "\n" ++ t := by
      show String.mk (pass1Aux false none ("#" ++ s ++ "\n" ++ t).data)
        = "\n" ++ t
      rw [hxd]
      have hcut : pass1Aux false none (hashChar :: (s.data ++ nlChar :: t.data))
          = pass1Aux true none (s.data ++ nlChar :: t.data) := by
        simp [pass1Aux, isGuard]
      rw [hcut, pass1Aux_drop_to_nl s.data hs none t.data, hfixt]
      have := mk_data ("\n" ++ t)
      rw [hnt] at this
      exact this
    simp only [sanitize, if_neg hne, hp1]
    refine pass2_fix_of_allGuarded _ ?_
    rw [hnt]
    refine allGuarded_of_no_hash _ ?_ none
    intro hmem
    rcases List.mem_cons.1 hmem with h | h
    · exact absurd h.symm (by decide)
    · exact ht2 h
  · have hq : ("\n#" : String).data = [nlChar, hashChar] := by decide
    have hxd : (t ++ "\n#" ++ s ++ "\n" ++ t).data
        = t.data ++ (nlChar :: hashChar :: (s.data ++ nlChar :: t.data)) := by
      simp only [data_append, hq, nl_str_data, List.append_assoc, List.cons_append, List.singleton_append]
      rfl
    have hne : (t ++ "\n#" ++ s ++ "\n" ++ t) ≠ "" :=
      ne_empty_of_data_ne_nil (by rw [hxd]; simp)
    have hrhs : (t ++ "\n\n" ++ t).data
        = t.data ++ (nlChar :: nlChar :: t.data) := by
      have : ("\n\n" : String).data = [nlChar, nlChar] := by decide
      simp only [data_append, this, List.append_assoc, List.cons_append, List.singleton_append]
      rfl
    have hp1 : pass1 (t ++ "\n#" ++ s ++ "\n" ++ t) = t ++ "\n\n" ++ t := by
      show String.mk (pass1Aux false none (t ++ "\n#" ++ s ++ "\n" ++ t).data)
        = t ++ "\n\n" ++ t
      rw [hxd, pass1Aux_copy t.data ht2 none _]
      have e1 : pass1Aux false (lastPrev none t.data)
          (nlChar :: hashChar :: (s.data ++ nlChar :: t.data))
          = nlChar :: pass1Aux false (some nlChar)
              (hashChar :: (s.data ++ nlChar :: t.data)) := by
        simp [pass1Aux, hnh]
      have e2 : pass1Aux false (some nlChar)
          (hashChar :: (s.data ++ nlChar :: t.data))
          = pass1Aux true (some nlChar) (s.data ++ nlChar :: t.data) := by
        simp [pass1Aux, hng]
      rw [e1, e2, pass1Aux_drop_to_nl s.data hs (some nlChar) t.data, hfixt]
      have := mk_data (t ++ "\n\n" ++ t)
      rw [hrhs] at this
      exact this
    simp only [sanitize, if_neg hne, hp1]
    refine pass2_fix_of_allGuarded _ ?_
    rw [hrhs]
    refine allGuarded_of_no_hash _ ?_ none
    intro hmem
    rcases List.mem_append.1 hmem with h | h
    · exact ht2 h
    · rcases List.mem_cons.1 h with h | h
      · exact absurd h.symm (by decide)
      · rcases List.mem_cons.1 h with h | h
        · exact absurd h.symm (by decide)
        · exact ht2 h

/-- Witness for C2 (amended) at the spec's own example text
`"# header\nprint(2)"` and its mid-file variant. -/
theorem c2_amended_witness :
    sanitize ("#" ++ " header" ++ "\n" ++ "print(2)") = "\n" ++ "print(2)" ∧
    sanitize ("print(2)" ++ "\n#" ++ " header" ++ "\n" ++ "print(2)")
      = "print(2)" ++ "\n\n" ++ "print(2)" :=
  c2_amended " header" "print(2)" (by decide) (by decide) (by decide)

/-!  Claim C8. -/

/-- C8: the Sanitizer is idempotent on already-sanitized text containing
no comments.  "Contains no comments" is rendered as `allGuarded`: every
`#` of the sanitized text is immediately preceded by a quote character
or backslash, so the comment passes detect nothing (this covers in
particular any sanitized text without `#` at all). -/
theorem c8_idempotent (x : String)
    (h : allGuarded none (sanitize x).data = true) :
    sanitize (sanitize x) = sanitize x :=
  sanitize_fix_of_allGuarded _ h

/-- Witness for C8 at `"print(1)  # note"`, whose sanitized form
`"print(1)  "` contains no comments. -/
theorem c8_idempotent_witness :
    sanitize (sanitize "print(1)  # note") = sanitize "print(1)  # note" :=
  c8_idempotent "print(1)  # note" (by decide)

/-!  Claim C3. -/

/-- C3 is false as stated: supplying BOTH a directory and a file list is
not rejected — the `main.py` validation passes (it only checks that not
both are absent) and `analyze_project` proceeds using the file list. -/
theorem c3_counterexample :
    mainValidationPasses (some "proj") (some ["a.py"]) = true ∧
    collectFiles demoWalk (some "proj") (some ["a.py"]) = Except.ok ["a.py"] :=
  ⟨rfl, rfl⟩

/-- C3 (amended): only the neither-supplied case is rejected; when a
(nonempty) file list is supplied — whether or not a directory is also
supplied — validation passes and the run proceeds with the file list,
which takes precedence over the directory. -/
theorem c3_amended (walk : String → List String) (d : Option String)
    (l : List String) (hl : l ≠ []) :
    mainValidationPasses d (some l) = true ∧
    collectFiles walk d (some l) = Except.ok l ∧
    mainValidationPasses none none = false ∧
    collectFiles walk none none = Except.error CollectError.missingInput := by
  rcases l with _ | ⟨a, as⟩
  · exact absurd rfl hl
  · exact ⟨by simp [mainValidationPasses, listTruthy],
      by simp [collectFiles, listTruthy], rfl, rfl⟩

/-- Witness for C3 (amended) with both a directory and a file list. -/
theorem c3_amended_witness :
    mainValidationPasses (some "proj") (some ["a.py"]) = true ∧
    collectFiles demoWalk (some "proj") (some ["a.py"]) = Except.ok ["a.py"] ∧
    mainValidationPasses none none = false ∧
    collectFiles demoWalk none none = Except.error CollectError.missingInput :=
  c3_amended demoWalk (some "proj") ["a.py"] (by decide)

/-!  Claim C5. -/

/-- C5 is false as stated: constructing the analyzer with the
unsupported provider `"deepseek"` succeeds (the constructor has no
validation); the unsupported-provider error surfaces only from
`generate_summary`, i.e. when the aggregate generate call runs. -/
theorem c5_counterexample :
    initAnalyzer "deepseek" none
      = Except.ok { llm_provider := "deepseek", model_id := CLAUDE_SONNET } ∧
    generate_summary
        { llm_provider := "deepseek", model_id := CLAUDE_SONNET } [] "Demo"
      = Except.error "Unsupported LLM provider: deepseek" :=
  ⟨rfl, rfl⟩

/-- C5 (amended): for every provider name outside
{openai, claude, llama3}, construction still succeeds, and the
unsupported-provider `ValueError` is raised when `generate_summary`
runs — before any provider call is dispatched (the error branch builds
no `ProviderCall`). -/
theorem c5_amended (provider m project_name : String) (model : Option String)
    (summaries : List (String × String)) (h1 : provider ≠ "claude")
    (h2 : provider ≠ "openai") (h3 : provider ≠ "llama3") :
    (initAnalyzer provider model).isOk = true ∧
    generate_summary { llm_provider := provider, model_id := m }
        summaries project_name
      = Except.error ("Unsupported LLM provider: " ++ provider) := by
  exact ⟨rfl, by simp [generate_summary, h1, h2, h3]⟩

/-- Witness for C5 (amended) at provider `"deepseek"`. -/
theorem c5_amended_witness :
    (initAnalyzer "deepseek" (some "m")).isOk = true ∧
    generate_summary { llm_provider := "deepseek", model_id := "m" } [] "Demo"
      = Except.error ("Unsupported LLM provider: " ++ "deepseek") :=
  c5_amended "deepseek" "m" "Demo" (some "m") [] (by decide) (by decide)
    (by decide)

/-!  Claim C6. -/

/-- C6: if the single aggregate LLM call fails, the run writes nothing —
no output directory is created and no per-file or summary content is
written, because `os.makedirs` and all writes come strictly after the
aggregate call succeeds. -/
theorem c6_no_writes_on_llm_failure (read : String → String)
    (walk : String → List String) (project_path : Option String)
    (output_path project_name : String) (file_list : Option (List String))
    (e : String) :
    createdDir (analyze_project read walk (fun _ => Except.error e)
        project_path output_path project_name file_list) = none ∧
    writtenFiles (analyze_project read walk (fun _ => Except.error e)
        project_path output_path project_name file_list) = [] := by
  unfold analyze_project
  rcases hc : collectFiles walk project_path file_list with err | files
  · simp [createdDir, writtenFiles]
  · cases hf : files.isEmpty <;> simp [hf, createdDir, writtenFiles]

/-!  Claim C9. -/

/-- C9 is false as stated: with no model supplied, the `"llama3"`
provider defaults to `CLAUDE_SONNET` — the Claude model identifier
`claude-3-5-sonnet-20241022`, not a llama3 model (the default is the
binary `openai → GPT_4_TURBO, else → CLAUDE_SONNET`). -/
theorem c9_counterexample :
    initAnalyzer "llama3" none
      = Except.ok { llm_provider := "llama3", model_id := CLAUDE_SONNET } ∧
    CLAUDE_SONNET = "claude-3-5-sonnet-20241022" :=
  ⟨rfl, rfl⟩

/-- C9 (amended): with no model supplied, `"openai"` defaults to
`GPT_4_TURBO` and every other provider — `"claude"` but also
`"llama3"` — defaults to `CLAUDE_SONNET`. -/
theorem c9_amended :
    initAnalyzer "openai" none
      = Except.ok { llm_provider := "openai", model_id := GPT_4_TURBO } ∧
    initAnalyzer "claude" none
      = Except.ok { llm_provider := "claude", model_id := CLAUDE_SONNET } ∧
    initAnalyzer "llama3" none
      = Except.ok { llm_provider := "llama3", model_id := CLAUDE_SONNET } :=
  ⟨rfl, rfl, rfl⟩

/-!  Claim C10. -/

/-- C10: an empty `file_list` is falsy, so it is treated as if no file
list were supplied: with a (nonempty) `project_path` the directory is
scanned instead of returning the empty list verbatim, and without a
`project_path` the call raises `ValueError` (and never reaches the
graceful no-files-found return). -/
theorem c10_empty_file_list (walk : String → List String)
    (read : String → String) (llm : String → Except String String)
    (output_path project_name p : String) (hp : p ≠ "") :
    collectFiles walk (some p) (some []) = Except.ok (walk p) ∧
    collectFiles walk none (some []) = Except.error CollectError.missingInput ∧
    analyze_project read walk llm none output_path project_name (some [])
      = RunOutcome.invalidArgs := by
  refine ⟨?_, rfl, rfl⟩
  simp [collectFiles, listTruthy, strTruthy, hp]

/-- Witness for C10 with project path `"proj"`. -/
theorem c10_empty_file_list_witness :
    collectFiles demoWalk (some "proj") (some []) = Except.ok (demoWalk "proj") ∧
    collectFiles demoWalk none (some []) = Except.error CollectError.missingInput ∧
    analyze_project demoRead demoWalk (fun _ => Except.ok "S") none "." "P"
        (some []) = RunOutcome.invalidArgs :=
  c10_empty_file_list demoWalk demoRead (fun _ => Except.ok "S") "." "P" "proj"
    (by decide)

/-!  Claim C7. -/

/-- Inserting a key absent from the dictionary appends it. -/
theorem dictInsert_fresh (m : List (String × String)) (k v : String)
    (h : ∀ kv ∈ m, kv.1 ≠ k) : dictInsert m k v = m ++ [(k, v)] := by
  have hany : m.any (fun e => e.1 == k) = false := by
    cases hb : m.any (fun e => e.1 == k)
    · rfl
    · rcases List.any_eq_true.1 hb with ⟨kv, hkv, hbeq⟩
      exact absurd (by simpa using hbeq) (h kv hkv)
  simp [dictInsert, hany]

/-- The dictionary fold of `analyze_files` over pairwise-distinct paths,
started from any accumulator whose keys avoid those paths, appends
exactly the nonempty-summary entries in input order. -/
theorem analyze_files_go (read : String → String) :
    ∀ (files : List String) (acc : List (String × String)),
      files.Nodup →
      (∀ f ∈ files, ∀ kv ∈ acc, kv.1 ≠ f) →
      (files.map (fun f => (f, summarize_file read f))).foldl
          (fun m kv => if kv.2 == "" then m else dictInsert m kv.1 kv.2) acc
        = acc ++ (files.filter (fun f => !(summarize_file read f == ""))).map
            (fun f => (f, summarize_file read f)) := by
  intro files
  induction files with
  | nil => intro acc _ _; simp
  | cons f fs ih =>
    intro acc hnd hacc
    have hnd' : fs.Nodup := (List.nodup_cons.1 hnd).2
    have hfn : f ∉ fs := (List.nodup_cons.1 hnd).1
    simp only [List.map_cons, List.foldl_cons, List.filter_cons]
    cases hsum : (summarize_file read f == "") with
    | true =>
      simp only [hsum, if_pos rfl, Bool.not_true, Bool.false_eq_true,
        if_neg (by simp : ¬ (false = true))]
      exact ih acc hnd'
        (fun g hg kv hkv => hacc g (List.mem_cons_of_mem f hg) kv hkv)
    | false =>
      have hstep : dictInsert acc f (summarize_file read f)
          = acc ++ [(f, summarize_file read f)] :=
        dictInsert_fresh acc f (summarize_file read f)
          (fun kv hkv => hacc f (List.mem_cons_self f fs) kv hkv)
      rw [if_neg (by simp : ¬ (false = true)), hstep,
        ih (acc ++ [(f, summarize_file read f)]) hnd' ?_]
      · simp
      · intro g hg kv hkv
        rcases List.mem_append.1 hkv with hkv | hkv
        · exact hacc g (List.mem_cons_of_mem f hg) kv hkv
        · have : kv = (f, summarize_file read f) := by simpa using hkv
          subst this
          intro hfg
          have hfg' : f = g := hfg
          exact hfn (hfg' ▸ hg)

/-- C7: over an ordered sequence of pairwise-distinct paths (paths are
unique within a run), `analyze_files` returns exactly the entries whose
sanitized text is nonempty, each path mapped to its sanitized text, in
the original input order. -/
theorem c7_analyze_files (read : String → String) (files : List String)
    (h : files.Nodup) :
    analyze_files read files
      = (files.filter (fun f => !(summarize_file read f == ""))).map
          (fun f => (f, summarize_file read f)) := by
  have := analyze_files_go read files [] h (by intro g _ kv hkv; simp at hkv)
  simpa [analyze_files] using this

/-- Witness for C7 with one readable and one unreadable path. -/
theorem c7_analyze_files_witness :
    analyze_files demoRead ["a.py", "missing.py"]
      = (["a.py", "missing.py"].filter
          (fun f => !(summarize_file demoRead f == ""))).map
          (fun f => (f, summarize_file demoRead f)) :=
  c7_analyze_files demoRead ["a.py", "missing.py"] (by decide)

/-!  Claim C4. -/

/-- Key lookup over entries equals key lookup over the key list. -/
theorem any_fst_eq (d : List (String × String)) (n : String) :
    d.any (fun e => e.1 == n) = (d.map Prod.fst).any (fun k => k == n) := by
  induction d with
  | nil => rfl
  | cons e d ih => simp [List.any_cons, ih]

/-- Overwriting an existing key leaves the key list unchanged. -/
theorem fsWrite_update_keys (d : List (String × String)) (n c : String) :
    (d.map (fun e => if e.1 == n then (n, c) else e)).map Prod.fst
      = d.map Prod.fst := by
  induction d with
  | nil => rfl
  | cons e d ih =>
    show (if e.1 == n then (n, c) else e).1 ::
        (d.map (fun e => if e.1 == n then (n, c) else e)).map Prod.fst
      = e.1 :: d.map Prod.fst
    rw [ih]
    congr 1
    by_cases he : (e.1 == n) = true
    · have he' : e.1 = n := by simpa using he
      rw [if_pos he]
      exact he'.symm
    · rw [if_neg he]

/-- The key list after one write: unchanged if the name was present,
otherwise the name is appended. -/
theorem fsWrite_keys (d : List (String × String)) (n c : String) :
    (fsWrite d n c).map Prod.fst
      = if (d.map Prod.fst).any (fun k => k == n) then d.map Prod.fst
        else d.map Prod.fst ++ [n] := by
  unfold fsWrite
  rw [← any_fst_eq]
  by_cases hb : (d.any fun e => e.1 == n) = true
  · rw [if_pos hb, if_pos hb]
    exact fsWrite_update_keys d n c
  · rw [if_neg hb, if_neg hb, List.map_append]
    rfl

/-- The key list of the per-entry write loop is the insert-if-absent
fold over the derived names. -/
theorem writeLoop_keys (l : List (String × String)) :
    ∀ acc : List (String × String),
      ((l.foldl (fun d fs => fsWrite d (derivedName fs.1) fs.2) acc).map
          Prod.fst)
        = (l.map (fun fs => derivedName fs.1)).foldl
            (fun ks n => if ks.any (fun k => k == n) then ks else ks ++ [n])
            (acc.map Prod.fst) := by
  induction l with
  | nil => intro acc; rfl
  | cons fs l ih =>
    intro acc
    simp only [List.foldl_cons, List.map_cons]
    rw [ih (fsWrite acc (derivedName fs.1) fs.2), fsWrite_keys]

/-- The insert-if-absent fold computes `dedupNew`. -/
theorem foldl_insert_eq_dedupNew (names : List String) :
    ∀ seen : List String,
      names.foldl
          (fun ks n => if ks.any (fun k => k == n) then ks else ks ++ [n]) seen
        = seen ++ dedupNew seen names := by
  induction names with
  | nil => intro seen; simp [dedupNew]
  | cons n ns ih =>
    intro seen
    simp only [List.foldl_cons, dedupNew]
    by_cases hb : (seen.any fun k => k == n) = true
    · rw [if_pos hb, if_pos hb, ih seen]
    · rw [if_neg hb, if_neg hb, ih (seen ++ [n]), List.append_assoc]
      rfl

/-- Every name kept by `dedupNew` comes from the input names. -/
theorem mem_of_mem_dedupNew :
    ∀ (names seen : List String) (x : String),
      x ∈ dedupNew seen names → x ∈ names := by
  intro names
  induction names with
  | nil => intro seen x h; simp [dedupNew] at h
  | cons n ns ih =>
    intro seen x h
    simp only [dedupNew] at h
    cases hb : seen.any (fun k => k == n) with
    | true =>
      rw [hb, if_pos rfl] at h
      exact List.mem_cons_of_mem _ (ih seen x h)
    | false =>
      rw [hb, if_neg (by simp : ¬ (false = true))] at h
      rcases List.mem_cons.1 h with h | h
      · exact h ▸ List.mem_cons_self _ _
      · exact List.mem_cons_of_mem _ (ih (seen ++ [n]) x h)

/-- No derived per-file name (ending in `.json`) can collide with the
aggregate summary file name. -/
theorem json_ne_summary (b : String) :
    b ++ ".json" ≠ "project_summary.md" := by
  intro h
  have hd : b.data ++ (".json" : String).data
      = ("project_summary.md" : String).data := by
    rw [← data_append, h]
  have hlen : b.data.length + 5 = 18 := by
    have hl := congrArg List.length hd
    have l1 : (".json" : String).data.length = 5 := by decide
    have l2 : ("project_summary.md" : String).data.length = 18 := by decide
    rw [List.length_append, l1, l2] at hl
    exact hl
  have hsplit : ("project_summary.md" : String).data
      = ("project_summa" : String).data ++ ("ry.md" : String).data := by decide
  rw [hsplit] at hd
  have h13 : ("project_summa" : String).data.length = 13 := by decide
  have hblen : b.data.length = ("project_summa" : String).data.length := by
    rw [h13]; omega
  have htail := (List.append_inj hd hblen).2
  exact absurd htail (by decide)

/-- C4 is false as stated: two distinct input paths with equal base
names (`a/x.py` and `b/x.py`) produce a single per-file output file —
the second write overwrites the first — so a successful run leaves 2
files, not the 3 the claim requires. -/
theorem c4_counterexample :
    (writeOutputs [("a/x.py", "1"), ("b/x.py", "2")] "S").length = 2 ∧
    (writeOutputs [("a/x.py", "1"), ("b/x.py", "2")] "S").length
      ≠ [("a/x.py", "1"), ("b/x.py", "2")].length + 1 := by decide

/-- C4 (amended): after a successful run the output directory contains
exactly one per-file output file for each DISTINCT derived name
(basename plus `.json`; entries with equal base names collapse, the
last write winning) plus exactly one aggregate `project_summary.md`,
which never collides with a per-file name. -/
theorem c4_amended (summaries : List (String × String))
    (project_summary : String) :
    (writeOutputs summaries project_summary).map Prod.fst
      = dedupNew [] (summaries.map (fun e => derivedName e.1))
        ++ ["project_summary.md"] := by
  unfold writeOutputs
  rw [fsWrite_keys]
  have hkeys : ((summaries.foldl
        (fun d fs => fsWrite d (derivedName fs.1) fs.2) []).map Prod.fst)
      = dedupNew [] (summaries.map (fun e => derivedName e.1)) := by
    rw [writeLoop_keys, foldl_insert_eq_dedupNew]
    simp
  rw [hkeys]
  have hany : (dedupNew [] (summaries.map (fun e => derivedName e.1))).any
      (fun k => k == "project_summary.md") = false := by
    cases hb : (dedupNew [] (summaries.map (fun e => derivedName e.1))).any
        (fun k => k == "project_summary.md")
    · rfl
    · exfalso
      rcases List.any_eq_true.1 hb with ⟨k, hk, hkeq⟩
      have hk' : k = "project_summary.md" := by simpa using hkeq
      have hmem := mem_of_mem_dedupNew _ _ _ hk
      rcases List.mem_map.1 hmem with ⟨fs, _, hfs⟩
      exact json_ne_summary (replaceSep (basename fs.1)) (hfs.trans hk')
  rw [hany, if_neg (by simp : ¬ (false = true))]
